import Mathlib

/-!
# lib/vminfo.c of nagios-plugins-linux: virtual-memory statistics

A shallow embedding of `src/lib/vminfo.c` and the properties of its
refcounted statistics handle, its read-and-aggregate routine, its accessors
and its swap-activity routine.

Conventions of the embedding

* C integer types follow the LP64 Linux ABI: `unsigned long` is 64 bits,
  `unsigned` is 32 bits, `int` is 32 bits.  Values are `Nat`/`Int`, every
  wrap-around is an explicit `%`.
* Pointers are addresses (`Nat`), `0` is `NULL`.  The heap maps addresses to
  the live objects of the two struct types of the file; the results of
  `calloc` are arguments of the functions that allocate.
* The files under `/proc` are an explicit argument (`FileSystem`); a stream
  is the list of the bytes still to be read.
* A computation that dereferences a null or dangling pointer, or hands a null
  stream to stdio, ends in `Failure.fault`; `plugin_error` ends the process
  (`Failure.exit`).
* `procparser` is defined in procparser.c, which is not among the sources.
  `proc_vmem_read` takes it as an argument; the section `procparser` gives the
  parser the specification describes, used where a concrete parser is needed.

Layout: definitions, then lemmas and the theorems C1 to C10.
-/

namespace Vminfo

/-! ## Machine integers -/

/-- Number of values of `unsigned long`. -/
def ULONG_MOD : Nat := 2 ^ 64

/-- Number of values of `unsigned`. -/
def UINT_MOD : Nat := 2 ^ 32

/-- Smallest value of `int`. -/
def INT_MIN : Int := -(2 ^ 31)

/-- The errno value `ENOMEM`. -/
def ENOMEM : Int := 12

/-- Addition of two `unsigned long` values. -/
def uadd (a b : Nat) : Nat := (a + b) % ULONG_MOD

/-! ## Outcomes -/

/-- Ways in which a call does not return. -/
inductive Failure
  | fault
  | exit
  deriving DecidableEq, Repr

/-- Result of a call that may not return. -/
abbrev Outcome (α : Type) := Except Failure α

/-! ## Data model (vminfo.c lines 44-100) -/

/-- The members of `struct proc_vmem_data`, in declaration order. -/
inductive vm_field
  | vm_nr_dirty
  | vm_nr_writeback
  | vm_nr_pagecache
  | vm_nr_page_table_pages
  | vm_nr_reverse_maps
  | vm_nr_mapped
  | vm_nr_slab
  | vm_pgpgin
  | vm_pgpgout
  | vm_pswpin
  | vm_pswpout
  | vm_pgalloc
  | vm_pgfree
  | vm_pgactivate
  | vm_pgdeactivate
  | vm_pgfault
  | vm_pgmajfault
  | vm_pgscan
  | vm_pgrefill
  | vm_pgsteal
  | vm_kswapd_steal
  | vm_pageoutrun
  | vm_allocstall
  | vm_pgrotated
  | vm_pgalloc_dma
  | vm_pgalloc_high
  | vm_pgalloc_normal
  | vm_pgrefill_dma
  | vm_pgrefill_high
  | vm_pgrefill_normal
  | vm_pgscan_direct_dma
  | vm_pgscan_direct_high
  | vm_pgscan_direct_normal
  | vm_pgscan_kswapd_dma
  | vm_pgscan_kswapd_high
  | vm_pgscan_kswapd_normal
  | vm_pgsteal_dma
  | vm_pgsteal_high
  | vm_pgsteal_normal
  | vm_kswapd_inodesteal
  | vm_nr_unstable
  | vm_pginodesteal
  | vm_slabs_scanned
  deriving DecidableEq, Repr

open vm_field

/-- The record `struct proc_vmem_data`: one `unsigned long` per member. -/
abbrev proc_vmem_data := vm_field → Nat

/-- Assignment `data->f = v`. -/
def setField (data : proc_vmem_data) (f : vm_field) (v : Nat) : proc_vmem_data :=
  fun g => if g = f then v else data g

/-- The record `calloc` hands out: all members zero. -/
def zero_data : proc_vmem_data := fun _ => 0

/-- The handle `struct proc_vmem`. -/
structure proc_vmem where
  refcount : Int
  data : Nat
  deriving DecidableEq, Repr

/-- The live objects of the two struct types, by address. -/
structure Heap where
  vmem : Nat → Option proc_vmem
  data : Nat → Option proc_vmem_data

/-- Heap after writing a handle object at an address. -/
def Heap.setVmem (h : Heap) (p : Nat) (v : Option proc_vmem) : Heap :=
  { h with vmem := fun q => if q = p then v else h.vmem q }

/-- Heap after writing a record object at an address. -/
def Heap.setData (h : Heap) (p : Nat) (v : Option proc_vmem_data) : Heap :=
  { h with data := fun q => if q = p then v else h.data q }

/-- The heap with no live object. -/
def Heap.empty : Heap := { vmem := fun _ => none, data := fun _ => none }

/-- Call `free (ptr)` on a record pointer: no-op on `NULL`, undefined on a
pointer that is not live. -/
def free_data (h : Heap) (ptr : Nat) : Outcome Heap :=
  if ptr = 0 then .ok h
  else match h.data ptr with
    | none => .error .fault
    | some _ => .ok (h.setData ptr none)

/-! ## proc_vmem_new (lines 105-124)

The two results of `calloc` are arguments: `c1` for the handle, `c2` for the
record (`0` when the allocation fails).  The result is the return value, the
heap, and the pointer stored through `vmem`, if one is stored. -/

/-- Allocates space for a new vmem object. -/
def proc_vmem_new (h : Heap) (c1 c2 : Nat) : Int × Heap × Option Nat :=
  if c1 = 0 then (-ENOMEM, h, none)
  else
    let h1 := h.setVmem c1 (some { refcount := 0, data := 0 })
    let h2 := h1.setVmem c1 (some { refcount := 1, data := 0 })
    if c2 = 0 then (-ENOMEM, h2.setVmem c1 none, none)
    else
      let h3 := (h2.setData c2 (some zero_data)).setVmem c1
        (some { refcount := 1, data := c2 })
      (0, h3, some c1)

/-! ## proc_vmem_unref (lines 214-227) -/

/-- Drop a reference of the memory library context. -/
def proc_vmem_unref (h : Heap) (vmem : Nat) : Outcome (Heap × Nat) :=
  if vmem = 0 then .ok (h, 0)
  else match h.vmem vmem with
    | none => .error .fault
    | some vm =>
      if vm.refcount = INT_MIN then .error .fault
      else
        let vm1 : proc_vmem := { vm with refcount := vm.refcount - 1 }
        let h1 := h.setVmem vmem (some vm1)
        if vm1.refcount > 0 then .ok (h1, vmem)
        else
          match free_data h1 vm1.data with
          | .error e => .error e
          | .ok h2 => .ok (h2.setVmem vmem none, 0)

/-! ## proc_vmem_read (lines 129-209) -/

/-- Contents of the files the library opens: `none` when `fopen` fails. -/
abbrev FileSystem := String → Option (List Char)

/-- The path macro `PROC_STAT`. -/
def PROC_STAT : String := "/proc/stat"

/-- The path macro `PROC_VMSTAT`. -/
def PROC_VMSTAT : String := "/proc/vmstat"

/-- A `proc_table_struct` array: each entry pairs a name with the member its
slot pointer addresses. -/
abbrev proc_table := List (String × vm_field)

/-- The type of `procparser (filename, table, count, separator)`, whose
definition (procparser.c) is not part of vminfo.c: its effect on the record
the slot pointers address. -/
abbrev procparser_t :=
  FileSystem → String → proc_table → Nat → Char → proc_vmem_data → Outcome proc_vmem_data

/-- The array `vmem_table` of `proc_vmem_read`. -/
def vmem_table : proc_table :=
  [ ("allocstall", vm_allocstall),
    ("kswapd_inodesteal", vm_kswapd_inodesteal),
    ("kswapd_steal", vm_kswapd_steal),
    ("nr_dirty", vm_nr_dirty),
    ("nr_mapped", vm_nr_mapped),
    ("nr_page_table_pages", vm_nr_page_table_pages),
    ("nr_pagecache", vm_nr_pagecache),
    ("nr_reverse_maps", vm_nr_reverse_maps),
    ("nr_slab", vm_nr_slab),
    ("nr_unstable", vm_nr_unstable),
    ("nr_writeback", vm_nr_writeback),
    ("pageoutrun", vm_pageoutrun),
    ("pgactivate", vm_pgactivate),
    ("pgalloc", vm_pgalloc),
    ("pgalloc_dma", vm_pgalloc_dma),
    ("pgalloc_high", vm_pgalloc_high),
    ("pgalloc_normal", vm_pgalloc_normal),
    ("pgdeactivate", vm_pgdeactivate),
    ("pgfault", vm_pgfault),
    ("pgfree", vm_pgfree),
    ("pginodesteal", vm_pginodesteal),
    ("pgmajfault", vm_pgmajfault),
    ("pgpgin", vm_pgpgin),
    ("pgpgout", vm_pgpgout),
    ("pgrefill", vm_pgrefill),
    ("pgrefill_dma", vm_pgrefill_dma),
    ("pgrefill_high", vm_pgrefill_high),
    ("pgrefill_normal", vm_pgrefill_normal),
    ("pgrotated", vm_pgrotated),
    ("pgscan", vm_pgscan),
    ("pgscan_direct_dma", vm_pgscan_direct_dma),
    ("pgscan_direct_high", vm_pgscan_direct_high),
    ("pgscan_direct_normal", vm_pgscan_direct_normal),
    ("pgscan_kswapd_dma", vm_pgscan_kswapd_dma),
    ("pgscan_kswapd_high", vm_pgscan_kswapd_high),
    ("pgscan_kswapd_normal", vm_pgscan_kswapd_normal),
    ("pgsteal", vm_pgsteal),
    ("pgsteal_dma", vm_pgsteal_dma),
    ("pgsteal_high", vm_pgsteal_high),
    ("pgsteal_normal", vm_pgsteal_normal),
    ("pswpin", vm_pswpin),
    ("pswpout", vm_pswpout),
    ("slabs_scanned", vm_slabs_scanned) ]

/-- The constant `vmem_table_count`. -/
def vmem_table_count : Nat := vmem_table.length

/-- Lines 185-188: the four legacy aggregates are cleared. -/
def reset_aggregates (data : proc_vmem_data) : proc_vmem_data :=
  let data := setField data vm_pgalloc 0
  let data := setField data vm_pgrefill 0
  let data := setField data vm_pgscan 0
  setField data vm_pgsteal 0

/-- Lines 192-208: an aggregate that is zero becomes the sum of its
per-zone counters. -/
def fill_aggregates (data : proc_vmem_data) : proc_vmem_data :=
  let data :=
    if data vm_pgalloc = 0 then
      setField data vm_pgalloc
        (uadd (uadd (data vm_pgalloc_dma) (data vm_pgalloc_high)) (data vm_pgalloc_normal))
    else data
  let data :=
    if data vm_pgrefill = 0 then
      setField data vm_pgrefill
        (uadd (uadd (data vm_pgrefill_dma) (data vm_pgrefill_high)) (data vm_pgrefill_normal))
    else data
  let data :=
    if data vm_pgscan = 0 then
      setField data vm_pgscan
        (uadd (uadd (uadd (uadd (uadd (data vm_pgscan_direct_dma) (data vm_pgscan_direct_high))
          (data vm_pgscan_direct_normal)) (data vm_pgscan_kswapd_dma))
          (data vm_pgscan_kswapd_high)) (data vm_pgscan_kswapd_normal))
    else data
  if data vm_pgsteal = 0 then
    setField data vm_pgsteal
      (uadd (uadd (data vm_pgsteal_dma) (data vm_pgsteal_high)) (data vm_pgsteal_normal))
  else data

/-- Lines 185-208 on the record `vmem->data` points to. -/
def proc_vmem_read_data (procparser : procparser_t) (fs : FileSystem)
    (data : proc_vmem_data) : Outcome proc_vmem_data :=
  match procparser fs PROC_VMSTAT vmem_table vmem_table_count ' ' (reset_aggregates data) with
  | .error e => .error e
  | .ok parsed => .ok (fill_aggregates parsed)

/-- Fill the proc_vmem structure with the values found in the proc
filesystem. -/
def proc_vmem_read (procparser : procparser_t) (fs : FileSystem) (h : Heap)
    (vmem : Nat) : Outcome Heap :=
  if vmem = 0 then .ok h
  else match h.vmem vmem with
    | none => .error .fault
    | some vm =>
      match h.data vm.data with
      | none => .error .fault
      | some data =>
        match proc_vmem_read_data procparser fs data with
        | .error e => .error e
        | .ok data1 => .ok (h.setData vm.data (some data1))

/-! ## Accessors (lines 229-303) -/

/-- The expression `p->data->vm_arg`. -/
def deref_field (h : Heap) (p : Nat) (f : vm_field) : Outcome Nat :=
  match h.vmem p with
  | none => .error .fault
  | some vm =>
    match h.data vm.data with
    | none => .error .fault
    | some data => .ok (data f)

/-- The macro `proc_vmem_get (arg)`. -/
def proc_vmem_get (f : vm_field) (h : Heap) (p : Nat) : Outcome Nat :=
  if p = 0 then .ok 0 else deref_field h p f

def proc_vmem_get_pgalloc := proc_vmem_get vm_pgalloc
def proc_vmem_get_pgfault := proc_vmem_get vm_pgfault
def proc_vmem_get_pgfree := proc_vmem_get vm_pgfree
def proc_vmem_get_pgmajfault := proc_vmem_get vm_pgmajfault
def proc_vmem_get_pgrefill := proc_vmem_get vm_pgrefill
def proc_vmem_get_pgscan := proc_vmem_get vm_pgscan
def proc_vmem_get_pgsteal := proc_vmem_get vm_pgsteal
def proc_vmem_get_pswpin := proc_vmem_get vm_pswpin
def proc_vmem_get_pswpout := proc_vmem_get vm_pswpout

/-! ## stdio: `fgets` and `sscanf` with the format `"<word> %lu %lu"` -/

/-- The C predicate `isspace` in the C locale. -/
def isspace (c : Char) : Bool :=
  c = ' ' || c = '\t' || c = '\n' || c = '\x0b' || c = '\x0c' || c = '\r'

/-- The C predicate `isdigit`. -/
def isdigit (c : Char) : Bool := '0'.toNat ≤ c.toNat && c.toNat ≤ '9'.toNat

/-- Value of a decimal digit. -/
def digitVal (c : Char) : Nat := c.toNat - '0'.toNat

/-- Call `fgets (buf, n, f)`: the bytes stored in `buf` (at most `n - 1`, ending
after the first newline) and the rest of the stream.  An empty first
component is the `NULL` return at end of file. -/
def fgets : Nat → List Char → List Char × List Char
  | _, [] => ([], [])
  | 0, c :: cs => ([], c :: cs)
  | 1, c :: cs => ([], c :: cs)
  | n + 2, c :: cs =>
    if c = '\n' then ([c], cs)
    else ((fgets (n + 1) cs).1.cons c, (fgets (n + 1) cs).2)

/-- The C string held in a buffer: the bytes before the first NUL. -/
def c_str (buf : List Char) : List Char := buf.takeWhile (fun c => c ≠ '\x00')

/-- An ordinary-character directive sequence: the input must start with it. -/
def match_literal : List Char → List Char → Option (List Char)
  | [], s => some s
  | _ :: _, [] => none
  | l :: ls, c :: cs => if l = c then match_literal ls cs else none

/-- A white-space directive, and the white space a conversion skips. -/
def skip_space (s : List Char) : List Char := s.dropWhile isspace

/-- The longest run of decimal digits, accumulated in base ten. -/
def scan_digits : Nat → List Char → Nat × List Char
  | acc, [] => (acc, [])
  | acc, c :: cs =>
    if isdigit c then scan_digits (acc * 10 + digitVal c) cs else (acc, c :: cs)

/-- The value `strtoul` gives a digit sequence of value `v`: `ULONG_MAX` when
out of range, negated in `unsigned long` after a minus sign. -/
def strtoul_value (neg : Bool) (v : Nat) : Nat :=
  if ULONG_MOD ≤ v then ULONG_MOD - 1
  else if neg then (ULONG_MOD - v) % ULONG_MOD
  else v

/-- The optional sign of a `%lu` subject sequence. -/
def scan_sign : List Char → Bool × List Char
  | [] => (false, [])
  | c :: r => if c = '-' then (true, r) else if c = '+' then (false, r) else (false, c :: r)

/-- The conversion `%lu`: the converted value and the rest of the input, or
`none` on a matching failure. -/
def conv_lu (s : List Char) : Option (Nat × List Char) :=
  let sg := scan_sign (skip_space s)
  match sg.2 with
  | [] => none
  | c :: cs =>
    if isdigit c then
      some (strtoul_value sg.1 (scan_digits 0 (c :: cs)).1, (scan_digits 0 (c :: cs)).2)
    else none

/-- Call `sscanf (buf, "<word> %lu %lu", &a, &b)`: the values stored, in
order; their number is the return value whenever it is positive (with none
stored the call returns 0 or EOF). -/
def sscanf_lu_lu (word : String) (buf : List Char) : List Nat :=
  match match_literal word.toList (c_str buf) with
  | none => []
  | some s1 =>
    match conv_lu (skip_space s1) with
    | none => []
    | some (a, s2) =>
      match conv_lu (skip_space s2) with
      | none => [a]
      | some (b, _) => [a, b]

/-- The loop `while (fgets (buf, sizeof buf, f)) { if (sscanf (...) == 2) break; }`
over a stream: the two values of the first buffer on which `sscanf`
returns 2, or `none` when the stream ends first.  Every round consumes at
least one byte, so `fuel` rounds suffice for a stream of `fuel` bytes. -/
def scan_loop (word : String) : Nat → List Char → Option (Nat × Nat)
  | 0, _ => none
  | fuel + 1, s =>
    if (fgets 2048 s).1 = [] then none
    else
      match sscanf_lu_lu word (fgets 2048 s).1 with
      | [a, b] => some (a, b)
      | _ => scan_loop word fuel (fgets 2048 s).2

/-- The scanning loop run to the end of the stream. -/
def scan_stream (word : String) (s : List Char) : Option (Nat × Nat) :=
  scan_loop word s.length s

/-! ## proc_vmem_get_pgpgin, proc_vmem_get_pgpgout (lines 243-287)

When `fopen` fails the code only sets `need_vmstat_file` and goes on to
`fgets (buf, sizeof buf, f)` with `f == NULL`.  The return type is
`unsigned`. -/

def proc_vmem_get_pgpgin (fs : FileSystem) (h : Heap) (vmem : Nat) : Outcome Nat :=
  match fs PROC_STAT with
  | none => .error .fault
  | some s =>
    match scan_stream "page" s with
    | some (pgpgin, _) => .ok (pgpgin % UINT_MOD)
    | none =>
      match deref_field h vmem vm_pgpgin with
      | .error e => .error e
      | .ok v => .ok (v % UINT_MOD)

def proc_vmem_get_pgpgout (fs : FileSystem) (h : Heap) (vmem : Nat) : Outcome Nat :=
  match fs PROC_STAT with
  | none => .error .fault
  | some s =>
    match scan_stream "page" s with
    | some (_, pgpgout) => .ok (pgpgout % UINT_MOD)
    | none =>
      match deref_field h vmem vm_pgpgout with
      | .error e => .error e
      | .ok v => .ok (v % UINT_MOD)

/-! ## proc_vmem_get_pgscand, proc_vmem_get_pgscank (lines 289-303) -/

def proc_vmem_get_pgscand (h : Heap) (vmem : Nat) : Outcome Nat :=
  if vmem = 0 then .ok 0
  else
    match h.vmem vmem with
    | none => .error .fault
    | some vm =>
      match h.data vm.data with
      | none => .error .fault
      | some data =>
        .ok (uadd (uadd (data vm_pgscan_direct_dma) (data vm_pgscan_direct_high))
          (data vm_pgscan_direct_normal))

def proc_vmem_get_pgscank (h : Heap) (vmem : Nat) : Outcome Nat :=
  if vmem = 0 then .ok 0
  else
    match h.vmem vmem with
    | none => .error .fault
    | some vm =>
      match h.data vm.data with
      | none => .error .fault
      | some data =>
        .ok (uadd (uadd (data vm_pgscan_kswapd_dma) (data vm_pgscan_kswapd_high))
          (data vm_pgscan_kswapd_normal))

/-! ## proc_vmem_get_swap_io (lines 309-343)

The result is the pair stored through `pswpin` and `pswpout`, and the heap.
`c1`, `c2` are the results of the two `calloc` calls of `proc_vmem_new`. -/

def proc_vmem_get_swap_io (procparser : procparser_t) (fs : FileSystem) (h : Heap)
    (c1 c2 : Nat) : Outcome ((Nat × Nat) × Heap) :=
  match fs PROC_STAT with
  | none => .error .exit
  | some s =>
    match scan_stream "swap" s with
    | some (pswpin, pswpout) => .ok ((pswpin, pswpout), h)
    | none =>
      let r := proc_vmem_new h c1 c2
      let vmem := r.2.2.getD 0
      if r.1 < 0 then .error .exit
      else
        match proc_vmem_read procparser fs r.2.1 vmem with
        | .error e => .error e
        | .ok h2 =>
          match proc_vmem_get_pswpin h2 vmem with
          | .error e => .error e
          | .ok pswpin =>
            match proc_vmem_get_pswpout h2 vmem with
            | .error e => .error e
            | .ok pswpout =>
              match proc_vmem_unref h2 vmem with
              | .error e => .error e
              | .ok r3 => .ok ((pswpin, pswpout), r3.1)

/-! ## procparser

`procparser.c` is not among the sources of this development; the parser is
modelled from the specification of the table parser. -/

/-- Modelled from the spec: the lines of the source file of `procparser`
("reads the file line by line"), without their newline. -/
def split_lines : List Char → List (List Char)
  | [] => []
  | c :: cs =>
    if c = '\n' then [] :: split_lines cs
    else
      match split_lines cs with
      | [] => [[c]]
      | l :: ls => (c :: l) :: ls

/-- Modelled from the spec: the characters that end a token of a line of
`procparser` ("a whitespace- or delimiter-separated token"). -/
def is_sep (sep : Char) (c : Char) : Bool := c = sep || isspace c

/-- Modelled from the spec: the key of a line of `procparser` ("each line is
expected to begin with a ... token (the key)"). -/
def leading_token (sep : Char) (line : List Char) : List Char :=
  line.takeWhile (fun c => !is_sep sep c)

/-- Modelled from the spec: the field of a line of `procparser` that follows
the key and the delimiter ("followed by one unsigned integer value, separated
by the given delimiter"; further tokens are ignored). -/
def value_token (sep : Char) (line : List Char) : List Char :=
  (((line.dropWhile (fun c => !is_sep sep c)).dropWhile (is_sep sep)).takeWhile
    (fun c => !is_sep sep c))

/-- Modelled from the spec: the number `procparser` stores for a field
("malformed numeric fields on an otherwise-matched line are treated as
zero"): the value of a non-empty run of decimal digits that fits the slot,
zero for anything else. -/
def parse_uint (tok : List Char) : Nat :=
  match tok with
  | [] => 0
  | c :: cs =>
    match scan_digits 0 (c :: cs) with
    | (v, []) => if v < ULONG_MOD then v else 0
    | (_, _ :: _) => 0

/-- Modelled from the spec: the schema search of `procparser` ("a linear
search of the schema for an entry whose key textually matches the line's
leading token") over the first `count` entries. -/
def table_lookup (table : proc_table) (count : Nat) (key : List Char) : Option vm_field :=
  ((table.take count).find? (fun e => e.1.toList = key)).map Prod.snd

/-- Modelled from the spec: what `procparser` does with one line ("on match,
parses the trailing numeric field and stores it into the matched slot,
overwriting any previous value; lines whose key matches no schema entry are
silently skipped"). -/
def parse_line (table : proc_table) (count : Nat) (sep : Char) (data : proc_vmem_data)
    (line : List Char) : proc_vmem_data :=
  match table_lookup table count (leading_token sep line) with
  | none => data
  | some f => setField data f (parse_uint (value_token sep line))

/-- Modelled from the spec: the table parser `procparser (filename, table,
count, separator)` of procparser.c, which is not among the sources ("opens
the source file for reading; failure to open is a fatal condition", then
every line in file order). -/
def procparser : procparser_t := fun fs filename table count sep data =>
  match fs filename with
  | none => .error .exit
  | some content => .ok ((split_lines content).foldl (parse_line table count sep) data)

/-! ## The functions of vminfo.c that take a handle -/

/-- The functions of vminfo.c with a `struct proc_vmem *` parameter. -/
inductive handle_op
  | read
  | unref
  | get (f : vm_field)
  | get_pgpgin
  | get_pgpgout
  | get_pgscand
  | get_pgscank

/-- The heap a function of vminfo.c leaves when called on a handle. -/
def run_op (procparser : procparser_t) (fs : FileSystem) :
    handle_op → Heap → Nat → Outcome Heap
  | .read, h, p => proc_vmem_read procparser fs h p
  | .unref, h, p => (proc_vmem_unref h p).map Prod.fst
  | .get f, h, p => (proc_vmem_get f h p).map (fun _ => h)
  | .get_pgpgin, h, p => (proc_vmem_get_pgpgin fs h p).map (fun _ => h)
  | .get_pgpgout, h, p => (proc_vmem_get_pgpgout fs h p).map (fun _ => h)
  | .get_pgscand, h, p => (proc_vmem_get_pgscand h p).map (fun _ => h)
  | .get_pgscank, h, p => (proc_vmem_get_pgscank h p).map (fun _ => h)

/-- The four legacy aggregates `proc_vmem_read` clears and fills. -/
def is_aggregate (f : vm_field) : Bool :=
  f = vm_pgalloc || f = vm_pgrefill || f = vm_pgscan || f = vm_pgsteal

/-- A file system holding the given texts of `/proc/stat` and `/proc/vmstat`
(`none`: the file cannot be opened) and nothing else. -/
def fs_of (stat vmstat : Option String) : FileSystem := fun path =>
  if path = PROC_STAT then stat.map String.toList
  else if path = PROC_VMSTAT then vmstat.map String.toList
  else none

/-- The heap right after `proc_vmem_new` on an empty heap, with the handle at
address 1 and its record at address 7. -/
def fresh_heap : Heap := (proc_vmem_new Heap.empty 1 7).2.1

/-- The text of a file made of the given lines, each ended by a newline. -/
def text_of_lines : List (List Char) → List Char
  | [] => []
  | l :: ls => l ++ '\n' :: text_of_lines ls

/-- A line (without its newline) that one `fgets` call on the 2048-byte
buffer delivers whole, newline included. -/
abbrev short_line (l : List Char) : Prop := '\n' ∉ l ∧ l.length + 2 ≤ 2048

/-- The line `<word> <a> <b>` of `/proc/stat`, the numbers in decimal. -/
def stat_line (word : String) (a b : Nat) : List Char :=
  word.toList ++ ' ' :: (Nat.toDigits 10 a ++ ' ' :: Nat.toDigits 10 b)

/-- The line `<key> <v>` of `/proc/vmstat`, the number in decimal. -/
def kv_line (key : String) (v : Nat) : List Char :=
  key.toList ++ ' ' :: Nat.toDigits 10 v

/-- A summary source whose first line is longer than the `fgets` buffer: 2047
bytes `x`, then `swap 1 2` on the same line, then the line `swap 10 20`. -/
def long_line_stat : List Char :=
  List.replicate 2047 'x' ++ "swap 1 2\nswap 10 20\n".toList

/-- A file system whose `/proc/stat` is `long_line_stat`. -/
def long_line_fs (vmstat : Option String) : FileSystem := fun path =>
  if path = PROC_STAT then some long_line_stat
  else if path = PROC_VMSTAT then vmstat.map String.toList
  else none

/-! ## Heap lemmas -/

@[simp] theorem setVmem_vmem_same (h : Heap) (p : Nat) (v : Option proc_vmem) :
    (h.setVmem p v).vmem p = v := by
  simp [Heap.setVmem]

theorem setVmem_vmem_other (h : Heap) (p q : Nat) (v : Option proc_vmem) (hq : q ≠ p) :
    (h.setVmem p v).vmem q = h.vmem q := by
  simp [Heap.setVmem, hq]

@[simp] theorem setVmem_data (h : Heap) (p : Nat) (v : Option proc_vmem) :
    (h.setVmem p v).data = h.data := rfl

@[simp] theorem setData_data_same (h : Heap) (p : Nat) (v : Option proc_vmem_data) :
    (h.setData p v).data p = v := by
  simp [Heap.setData]

theorem setData_data_other (h : Heap) (p q : Nat) (v : Option proc_vmem_data) (hq : q ≠ p) :
    (h.setData p v).data q = h.data q := by
  simp [Heap.setData, hq]

@[simp] theorem setData_vmem (h : Heap) (p : Nat) (v : Option proc_vmem_data) :
    (h.setData p v).vmem = h.vmem := rfl

theorem proc_vmem_new_ok (h : Heap) (c1 c2 : Nat) (h1 : c1 ≠ 0) (h2 : c2 ≠ 0) :
    proc_vmem_new h c1 c2 =
      (0, (((h.setVmem c1 (some { refcount := 0, data := 0 })).setVmem c1
        (some { refcount := 1, data := 0 })).setData c2 (some zero_data)).setVmem c1
        (some { refcount := 1, data := c2 }), some c1) := by
  simp [proc_vmem_new, h1, h2]

theorem proc_vmem_unref_last (h : Heap) (vmem : Nat) (vm : proc_vmem) (d : proc_vmem_data)
    (hnull : vmem ≠ 0) (hvm : h.vmem vmem = some vm) (hd0 : vm.data ≠ 0)
    (hd : h.data vm.data = some d) (hrc : vm.refcount = 1) :
    proc_vmem_unref h vmem =
      .ok (((h.setVmem vmem (some { vm with refcount := vm.refcount - 1 })).setData
        vm.data none).setVmem vmem none, 0) := by
  have hmin : ¬ ((1 : Int) = INT_MIN) := by decide
  simp [proc_vmem_unref, hnull, hvm, hrc, hmin, free_data, hd0, hd]

theorem proc_vmem_unref_shared (h : Heap) (vmem : Nat) (vm : proc_vmem)
    (hnull : vmem ≠ 0) (hvm : h.vmem vmem = some vm) (hrc : 2 ≤ vm.refcount) :
    proc_vmem_unref h vmem =
      .ok (h.setVmem vmem (some { vm with refcount := vm.refcount - 1 }), vmem) := by
  have hmin : ¬ (vm.refcount = INT_MIN) := by
    intro hc
    rw [hc] at hrc
    exact absurd hrc (by decide)
  have hpos : 0 < vm.refcount - 1 := by omega
  simp [proc_vmem_unref, hnull, hvm, hmin, hpos]

/-! ## The refcounted handle -/

/-- C4.  `proc_vmem_unref`: on a null handle it returns null and leaves the
heap as it is; on a live handle with refcount 1 it frees the record and the
handle and returns null; on a live handle with refcount `n >= 2` it returns
the same handle, now with refcount `n - 1`, and leaves every record (so every
counter) unchanged. -/
theorem proc_vmem_unref_contract (h : Heap) (vmem : Nat) (vm : proc_vmem)
    (d : proc_vmem_data) (hnull : vmem ≠ 0) (hvm : h.vmem vmem = some vm)
    (hd0 : vm.data ≠ 0) (hd : h.data vm.data = some d) :
    proc_vmem_unref h 0 = .ok (h, 0) ∧
    (vm.refcount = 1 →
      ∃ h', proc_vmem_unref h vmem = .ok (h', 0) ∧ h'.vmem vmem = none ∧
        h'.data vm.data = none ∧ (∀ q, q ≠ vmem → h'.vmem q = h.vmem q) ∧
        (∀ q, q ≠ vm.data → h'.data q = h.data q)) ∧
    (2 ≤ vm.refcount →
      ∃ h', proc_vmem_unref h vmem = .ok (h', vmem) ∧
        h'.vmem vmem = some { refcount := vm.refcount - 1, data := vm.data } ∧
        h'.data = h.data ∧ h'.data vm.data = some d ∧
        (∀ q, q ≠ vmem → h'.vmem q = h.vmem q)) := by
  refine ⟨by simp [proc_vmem_unref], ?_, ?_⟩
  · intro hrc
    refine ⟨_, proc_vmem_unref_last h vmem vm d hnull hvm hd0 hd hrc, ?_, ?_, ?_, ?_⟩
    · simp
    · simp
    · intro q hq
      simp [setVmem_vmem_other _ _ _ _ hq]
    · intro q hq
      simp [setData_data_other _ _ _ _ hq]
  · intro hrc
    refine ⟨_, proc_vmem_unref_shared h vmem vm hnull hvm hrc, ?_, ?_, ?_, ?_⟩
    · simp
    · simp
    · simpa using hd
    · intro q hq
      simp [setVmem_vmem_other _ _ _ _ hq]

/-- Witness of C4: a handle at address 1 with refcount 2 and a record at
address 7 comes back from `proc_vmem_unref` as handle 1 with refcount 1. -/
theorem proc_vmem_unref_contract_witness :
    ∃ h', proc_vmem_unref ((Heap.empty.setData 7 (some zero_data)).setVmem 1
        (some { refcount := 2, data := 7 })) 1 = .ok (h', 1) ∧
      h'.vmem 1 = some { refcount := 1, data := 7 } := by
  obtain ⟨h', h1, h2, _⟩ :=
    (proc_vmem_unref_contract ((Heap.empty.setData 7 (some zero_data)).setVmem 1
      (some { refcount := 2, data := 7 })) 1 { refcount := 2, data := 7 } zero_data
      (by decide) (by simp) (by decide) (by simp)).2.2 (by decide)
  exact ⟨h', h1, h2⟩

/-- C8.  `proc_vmem_new`, when both allocations succeed, returns 0 and stores
a handle whose refcount is 1 and whose record has every counter equal to
zero; one call of `proc_vmem_unref` on that handle returns null (and frees
handle and record). -/
theorem proc_vmem_new_contract (h : Heap) (c1 c2 : Nat) (h1 : c1 ≠ 0) (h2 : c2 ≠ 0) :
    ∃ h' d, proc_vmem_new h c1 c2 = (0, h', some c1) ∧
      h'.vmem c1 = some { refcount := 1, data := c2 } ∧
      h'.data c2 = some d ∧ (∀ f, d f = 0) ∧
      ∃ h'', proc_vmem_unref h' c1 = .ok (h'', 0) ∧ h''.vmem c1 = none ∧
        h''.data c2 = none := by
  refine ⟨_, zero_data, proc_vmem_new_ok h c1 c2 h1 h2, by simp, by simp, fun _ => rfl, ?_⟩
  refine ⟨_, proc_vmem_unref_last _ c1 { refcount := 1, data := c2 } zero_data h1
    (by simp) h2 (by simp) rfl, by simp, by simp⟩

/-- Witness of C8: creation on the empty heap with the allocator handing out
addresses 1 and 7. -/
theorem proc_vmem_new_contract_witness :
    ∃ h' d, proc_vmem_new Heap.empty 1 7 = (0, h', some 1) ∧
      h'.vmem 1 = some { refcount := 1, data := 7 } ∧
      h'.data 7 = some d ∧ (∀ f, d f = 0) ∧
      ∃ h'', proc_vmem_unref h' 1 = .ok (h'', 0) ∧ h''.vmem 1 = none ∧
        h''.data 7 = none :=
  proc_vmem_new_contract Heap.empty 1 7 (by decide) (by decide)

/-! ## Read and aggregate -/

theorem uadd_of_lt (a b : Nat) (h : a + b < ULONG_MOD) : uadd a b = a + b :=
  Nat.mod_eq_of_lt h

theorem uadd3_of_lt (a b c : Nat) (h : a + b + c < ULONG_MOD) :
    uadd (uadd a b) c = a + b + c := by
  rw [uadd_of_lt a b (by omega), uadd_of_lt _ _ h]

theorem uadd6_of_lt (a b c d e f : Nat) (h : a + b + c + d + e + f < ULONG_MOD) :
    uadd (uadd (uadd (uadd (uadd a b) c) d) e) f = a + b + c + d + e + f := by
  rw [uadd3_of_lt a b c (by omega), uadd3_of_lt _ d e (by omega), uadd_of_lt _ _ h]

theorem setData_setData (h : Heap) (p : Nat) (v w : Option proc_vmem_data) :
    (h.setData p v).setData p w = h.setData p w := by
  simp only [Heap.setData]
  congr 1
  funext q
  by_cases hq : q = p <;> simp [hq]

theorem reset_aggregates_congr (d d' : proc_vmem_data)
    (hagree : ∀ f, is_aggregate f = false → d' f = d f) :
    reset_aggregates d' = reset_aggregates d := by
  funext f
  by_cases hf : is_aggregate f = true
  · simp only [is_aggregate, Bool.or_eq_true, decide_eq_true_eq] at hf
    rcases hf with ((hf | hf) | hf) | hf <;> subst hf <;> simp [reset_aggregates, setField]
  · have hf' : is_aggregate f = false := by simpa using hf
    have hne := hf'
    simp only [is_aggregate, Bool.or_eq_false_iff, decide_eq_false_iff_not] at hne
    simp [reset_aggregates, setField, hne.1.1.1, hne.1.1.2, hne.1.2, hne.2, hagree f hf']

theorem setField_apply (d : proc_vmem_data) (f g : vm_field) (v : Nat) :
    setField d f v g = if g = f then v else d g := rfl

theorem fill_aggregates_other (d : proc_vmem_data) (f : vm_field)
    (hf : is_aggregate f = false) : fill_aggregates d f = d f := by
  simp only [is_aggregate, Bool.or_eq_false_iff, decide_eq_false_iff_not] at hf
  obtain ⟨⟨⟨h1, h2⟩, h3⟩, h4⟩ := hf
  unfold fill_aggregates
  split_ifs <;> simp [setField_apply, h1, h2, h3, h4]

theorem fill_aggregates_pgalloc (d : proc_vmem_data) :
    fill_aggregates d vm_pgalloc =
      if d vm_pgalloc = 0 then
        uadd (uadd (d vm_pgalloc_dma) (d vm_pgalloc_high)) (d vm_pgalloc_normal)
      else d vm_pgalloc := by
  unfold fill_aggregates
  split_ifs <;> simp [setField_apply]

theorem fill_aggregates_pgrefill (d : proc_vmem_data) :
    fill_aggregates d vm_pgrefill =
      if d vm_pgrefill = 0 then
        uadd (uadd (d vm_pgrefill_dma) (d vm_pgrefill_high)) (d vm_pgrefill_normal)
      else d vm_pgrefill := by
  unfold fill_aggregates
  split_ifs <;> simp_all [setField_apply]

theorem fill_aggregates_pgscan (d : proc_vmem_data) :
    fill_aggregates d vm_pgscan =
      if d vm_pgscan = 0 then
        uadd (uadd (uadd (uadd (uadd (d vm_pgscan_direct_dma) (d vm_pgscan_direct_high))
          (d vm_pgscan_direct_normal)) (d vm_pgscan_kswapd_dma))
          (d vm_pgscan_kswapd_high)) (d vm_pgscan_kswapd_normal)
      else d vm_pgscan := by
  unfold fill_aggregates
  split_ifs <;> simp_all [setField_apply]

theorem fill_aggregates_pgsteal (d : proc_vmem_data) :
    fill_aggregates d vm_pgsteal =
      if d vm_pgsteal = 0 then
        uadd (uadd (d vm_pgsteal_dma) (d vm_pgsteal_high)) (d vm_pgsteal_normal)
      else d vm_pgsteal := by
  unfold fill_aggregates
  split_ifs <;> simp_all [setField_apply]

theorem proc_vmem_read_ok (P : procparser_t) (fs : FileSystem) (h : Heap) (vmem : Nat)
    (vm : proc_vmem) (d0 parsed : proc_vmem_data) (hv : vmem ≠ 0)
    (hvm : h.vmem vmem = some vm) (hd : h.data vm.data = some d0)
    (hparse : P fs PROC_VMSTAT vmem_table vmem_table_count ' ' (reset_aggregates d0)
      = .ok parsed) :
    proc_vmem_read P fs h vmem = .ok (h.setData vm.data (some (fill_aggregates parsed))) := by
  simp [proc_vmem_read, hv, hvm, hd, proc_vmem_read_data, hparse]

theorem proc_vmem_get_live (f : vm_field) (h : Heap) (vmem : Nat) (vm : proc_vmem)
    (d : proc_vmem_data) (hv : vmem ≠ 0) (hvm : h.vmem vmem = some vm)
    (hd : h.data vm.data = some d) : proc_vmem_get f h vmem = .ok (d f) := by
  simp [proc_vmem_get, hv, deref_field, hvm, hd]

/-- C1.  Aggregate fallback.  For a live handle and any behaviour of the
table parser on the statistics source: when the parse inside
`proc_vmem_read` leaves a direct aggregate slot at zero, the read leaves that
aggregate equal to the sum of its decomposed counters, provided the sum fits
an `unsigned long`; the accessor returns that sum.  The decomposed counters
are those the parse left in the record. -/
theorem aggregate_fallback (P : procparser_t) (fs : FileSystem) (h : Heap) (vmem : Nat)
    (vm : proc_vmem) (d0 parsed : proc_vmem_data) (hv : vmem ≠ 0)
    (hvm : h.vmem vmem = some vm) (hd : h.data vm.data = some d0)
    (hparse : P fs PROC_VMSTAT vmem_table vmem_table_count ' ' (reset_aggregates d0)
      = .ok parsed) :
    ∃ h' d1, proc_vmem_read P fs h vmem = .ok h' ∧ h'.vmem vmem = some vm ∧
      h'.data vm.data = some d1 ∧
      (∀ f, is_aggregate f = false → d1 f = parsed f) ∧
      (parsed vm_pgalloc = 0 →
        d1 vm_pgalloc_dma + d1 vm_pgalloc_high + d1 vm_pgalloc_normal < ULONG_MOD →
        d1 vm_pgalloc = d1 vm_pgalloc_dma + d1 vm_pgalloc_high + d1 vm_pgalloc_normal ∧
        proc_vmem_get_pgalloc h' vmem =
          .ok (d1 vm_pgalloc_dma + d1 vm_pgalloc_high + d1 vm_pgalloc_normal)) ∧
      (parsed vm_pgrefill = 0 →
        d1 vm_pgrefill_dma + d1 vm_pgrefill_high + d1 vm_pgrefill_normal < ULONG_MOD →
        d1 vm_pgrefill = d1 vm_pgrefill_dma + d1 vm_pgrefill_high + d1 vm_pgrefill_normal ∧
        proc_vmem_get_pgrefill h' vmem =
          .ok (d1 vm_pgrefill_dma + d1 vm_pgrefill_high + d1 vm_pgrefill_normal)) ∧
      (parsed vm_pgsteal = 0 →
        d1 vm_pgsteal_dma + d1 vm_pgsteal_high + d1 vm_pgsteal_normal < ULONG_MOD →
        d1 vm_pgsteal = d1 vm_pgsteal_dma + d1 vm_pgsteal_high + d1 vm_pgsteal_normal ∧
        proc_vmem_get_pgsteal h' vmem =
          .ok (d1 vm_pgsteal_dma + d1 vm_pgsteal_high + d1 vm_pgsteal_normal)) ∧
      (parsed vm_pgscan = 0 →
        d1 vm_pgscan_direct_dma + d1 vm_pgscan_direct_high + d1 vm_pgscan_direct_normal
          + d1 vm_pgscan_kswapd_dma + d1 vm_pgscan_kswapd_high
          + d1 vm_pgscan_kswapd_normal < ULONG_MOD →
        d1 vm_pgscan =
          d1 vm_pgscan_direct_dma + d1 vm_pgscan_direct_high + d1 vm_pgscan_direct_normal
          + d1 vm_pgscan_kswapd_dma + d1 vm_pgscan_kswapd_high
          + d1 vm_pgscan_kswapd_normal ∧
        proc_vmem_get_pgscan h' vmem =
          .ok (d1 vm_pgscan_direct_dma + d1 vm_pgscan_direct_high
            + d1 vm_pgscan_direct_normal + d1 vm_pgscan_kswapd_dma
            + d1 vm_pgscan_kswapd_high + d1 vm_pgscan_kswapd_normal)) := by
  have hget : ∀ f, proc_vmem_get f (h.setData vm.data (some (fill_aggregates parsed))) vmem
      = .ok (fill_aggregates parsed f) := fun f =>
    proc_vmem_get_live f _ vmem vm _ hv (by simpa using hvm) (by simp)
  have hsame : ∀ f, is_aggregate f = false → fill_aggregates parsed f = parsed f :=
    fill_aggregates_other parsed
  refine ⟨_, fill_aggregates parsed, proc_vmem_read_ok P fs h vmem vm d0 parsed hv hvm hd hparse,
    by simpa using hvm, by simp, hsame, ?_, ?_, ?_, ?_⟩
  · intro hz hsum
    have e : fill_aggregates parsed vm_pgalloc = fill_aggregates parsed vm_pgalloc_dma
        + fill_aggregates parsed vm_pgalloc_high + fill_aggregates parsed vm_pgalloc_normal := by
      rw [hsame vm_pgalloc_dma rfl, hsame vm_pgalloc_high rfl, hsame vm_pgalloc_normal rfl] at hsum ⊢
      rw [fill_aggregates_pgalloc, if_pos hz, uadd3_of_lt _ _ _ hsum]
    exact ⟨e, by rw [proc_vmem_get_pgalloc, hget, e]⟩
  · intro hz hsum
    have e : fill_aggregates parsed vm_pgrefill = fill_aggregates parsed vm_pgrefill_dma
        + fill_aggregates parsed vm_pgrefill_high
        + fill_aggregates parsed vm_pgrefill_normal := by
      rw [hsame vm_pgrefill_dma rfl, hsame vm_pgrefill_high rfl, hsame vm_pgrefill_normal rfl] at hsum ⊢
      rw [fill_aggregates_pgrefill, if_pos hz, uadd3_of_lt _ _ _ hsum]
    exact ⟨e, by rw [proc_vmem_get_pgrefill, hget, e]⟩
  · intro hz hsum
    have e : fill_aggregates parsed vm_pgsteal = fill_aggregates parsed vm_pgsteal_dma
        + fill_aggregates parsed vm_pgsteal_high
        + fill_aggregates parsed vm_pgsteal_normal := by
      rw [hsame vm_pgsteal_dma rfl, hsame vm_pgsteal_high rfl, hsame vm_pgsteal_normal rfl] at hsum ⊢
      rw [fill_aggregates_pgsteal, if_pos hz, uadd3_of_lt _ _ _ hsum]
    exact ⟨e, by rw [proc_vmem_get_pgsteal, hget, e]⟩
  · intro hz hsum
    have e : fill_aggregates parsed vm_pgscan = fill_aggregates parsed vm_pgscan_direct_dma
        + fill_aggregates parsed vm_pgscan_direct_high
        + fill_aggregates parsed vm_pgscan_direct_normal
        + fill_aggregates parsed vm_pgscan_kswapd_dma
        + fill_aggregates parsed vm_pgscan_kswapd_high
        + fill_aggregates parsed vm_pgscan_kswapd_normal := by
      rw [hsame vm_pgscan_direct_dma rfl, hsame vm_pgscan_direct_high rfl,
        hsame vm_pgscan_direct_normal rfl, hsame vm_pgscan_kswapd_dma rfl,
        hsame vm_pgscan_kswapd_high rfl, hsame vm_pgscan_kswapd_normal rfl] at hsum ⊢
      rw [fill_aggregates_pgscan, if_pos hz, uadd6_of_lt _ _ _ _ _ _ hsum]
    exact ⟨e, by rw [proc_vmem_get_pgscan, hget, e]⟩

/-- Witness of C1: a statistics source with only `pgalloc_dma 3`,
`pgalloc_high 5`, `pgalloc_normal 7`, read through the modelled table parser
into a fresh handle, gives `proc_vmem_get_pgalloc` = 15. -/
theorem aggregate_fallback_witness :
    ∃ h', proc_vmem_read procparser
        (fs_of none (some "pgalloc_dma 3\npgalloc_high 5\npgalloc_normal 7\n"))
        fresh_heap 1 = .ok h' ∧
      proc_vmem_get_pgalloc h' 1 = .ok 15 := by
  obtain ⟨h', d1, hread, _, _, hsame, halloc, _⟩ :=
    aggregate_fallback procparser
      (fs_of none (some "pgalloc_dma 3\npgalloc_high 5\npgalloc_normal 7\n"))
      fresh_heap 1 { refcount := 1, data := 7 } zero_data
      ((split_lines "pgalloc_dma 3\npgalloc_high 5\npgalloc_normal 7\n".toList).foldl
        (parse_line vmem_table vmem_table_count ' ') (reset_aggregates zero_data))
      (by decide) (by rfl) (by rfl) (by rfl)
  have e1 : d1 vm_pgalloc_dma = 3 := (hsame vm_pgalloc_dma rfl).trans (by rfl)
  have e2 : d1 vm_pgalloc_high = 5 := (hsame vm_pgalloc_high rfl).trans (by rfl)
  have e3 : d1 vm_pgalloc_normal = 7 := (hsame vm_pgalloc_normal rfl).trans (by rfl)
  have hres := halloc (by rfl) (by rw [e1, e2, e3]; decide)
  exact ⟨h', hread, by rw [hres.2, e1, e2, e3]⟩

theorem except_map_ok {α β : Type} (f : α → β) (x : Outcome α) (b : β)
    (hx : x.map f = .ok b) : ∃ a, x = .ok a ∧ f a = b := by
  cases x with
  | error e => cases hx
  | ok a => exact ⟨a, rfl, by simpa [Except.map] using hx⟩

theorem proc_vmem_read_vmem (P : procparser_t) (fs : FileSystem) (h h' : Heap) (p : Nat)
    (hrun : proc_vmem_read P fs h p = .ok h') : h'.vmem = h.vmem := by
  unfold proc_vmem_read at hrun
  split_ifs at hrun with hp
  · cases hrun
    rfl
  · split at hrun
    · cases hrun
    · split at hrun
      · cases hrun
      · split at hrun
        · cases hrun
        · cases hrun
          rfl

theorem proc_vmem_unref_vmem (h h' : Heap) (p r : Nat) (vm : proc_vmem)
    (hvm : h.vmem p = some vm) (hrun : proc_vmem_unref h p = .ok (h', r)) :
    h'.vmem p = none ∨ h'.vmem p = some vm ∨
      h'.vmem p = some { refcount := vm.refcount - 1, data := vm.data } := by
  unfold proc_vmem_unref at hrun
  split_ifs at hrun with hp
  · cases hrun
    exact Or.inr (Or.inl hvm)
  · rw [hvm] at hrun
    dsimp only at hrun
    split_ifs at hrun with hmin hpos
    · cases hrun
      exact Or.inr (Or.inr (by simp))
    · split at hrun
      · cases hrun
      · cases hrun
        exact Or.inl (by simp)

theorem run_op_vmem (P : procparser_t) (fs : FileSystem) (op : handle_op) (h h' : Heap)
    (p : Nat) (vm : proc_vmem) (hvm : h.vmem p = some vm)
    (hrun : run_op P fs op h p = .ok h') :
    h'.vmem p = none ∨ h'.vmem p = some vm ∨
      h'.vmem p = some { refcount := vm.refcount - 1, data := vm.data } := by
  cases op with
  | read =>
    rw [proc_vmem_read_vmem P fs h h' p hrun]
    exact Or.inr (Or.inl hvm)
  | unref =>
    obtain ⟨a, ha, hfa⟩ := except_map_ok _ _ _ hrun
    subst hfa
    exact proc_vmem_unref_vmem h a.1 p a.2 vm hvm ha
  | get f =>
    obtain ⟨a, _, hfa⟩ := except_map_ok _ _ _ hrun
    subst hfa
    exact Or.inr (Or.inl hvm)
  | get_pgpgin =>
    obtain ⟨a, _, hfa⟩ := except_map_ok _ _ _ hrun
    subst hfa
    exact Or.inr (Or.inl hvm)
  | get_pgpgout =>
    obtain ⟨a, _, hfa⟩ := except_map_ok _ _ _ hrun
    subst hfa
    exact Or.inr (Or.inl hvm)
  | get_pgscand =>
    obtain ⟨a, _, hfa⟩ := except_map_ok _ _ _ hrun
    subst hfa
    exact Or.inr (Or.inl hvm)
  | get_pgscank =>
    obtain ⟨a, _, hfa⟩ := except_map_ok _ _ _ hrun
    subst hfa
    exact Or.inr (Or.inl hvm)

/-- C9, as stated, fails: vminfo.c has no share operation.  On the handle
`proc_vmem_new` creates (refcount 1), no function of the file that takes a
handle returns with the refcount of that handle raised to 2, whatever the
parser and the files are. -/
theorem no_share_operation :
    ¬ ∃ (op : handle_op) (P : procparser_t) (fs : FileSystem) (h' : Heap),
      run_op P fs op fresh_heap 1 = .ok h' ∧
      h'.vmem 1 = some { refcount := 2, data := 7 } := by
  rintro ⟨op, P, fs, h', hrun, h2⟩
  have hvm : fresh_heap.vmem 1 = some { refcount := 1, data := 7 } := by rfl
  rcases run_op_vmem P fs op fresh_heap h' 1 _ hvm hrun with h0 | h0 | h0
  · rw [h0] at h2
    cases h2
  · rw [h0] at h2
    exact absurd h2 (by decide)
  · rw [h0] at h2
    exact absurd h2 (by decide)

theorem proc_vmem_unref_exact (h h' : Heap) (p r : Nat) (vm : proc_vmem) (hp : p ≠ 0)
    (hvm : h.vmem p = some vm) (hrun : proc_vmem_unref h p = .ok (h', r)) :
    (2 ≤ vm.refcount ∧ r = p ∧
      h'.vmem p = some { refcount := vm.refcount - 1, data := vm.data } ∧
      h'.data = h.data) ∨
    (vm.refcount ≤ 1 ∧ r = 0 ∧ h'.vmem p = none) := by
  unfold proc_vmem_unref at hrun
  rw [if_neg hp, hvm] at hrun
  dsimp only at hrun
  split_ifs at hrun with hmin hpos
  · cases hrun
    exact Or.inl ⟨by omega, rfl, by simp, rfl⟩
  · split at hrun
    · cases hrun
    · cases hrun
      exact Or.inr ⟨by omega, rfl, by simp⟩

/-- C9, amended.  No function of vminfo.c that takes a handle raises the
refcount of a live, non-null handle.  Operation by operation, when the call
returns: `proc_vmem_read` leaves every handle object as it was (so this
handle keeps its refcount and its record pointer); each accessor leaves the
whole heap as it was; `proc_vmem_unref` either lowers the refcount by exactly
one and keeps the handle and every record (refcount at least 2 before the
call), or frees the handle (refcount at most 1 before the call).  A created
handle has refcount 1, and create followed by one release yields null. -/
theorem refcount_never_raised (P : procparser_t) (fs : FileSystem) (h : Heap) (p : Nat)
    (vm : proc_vmem) (hp : p ≠ 0) (hvm : h.vmem p = some vm) :
    (∀ h', run_op P fs handle_op.read h p = .ok h' →
      h'.vmem = h.vmem ∧ h'.vmem p = some vm) ∧
    (∀ (f : vm_field) (h' : Heap), run_op P fs (handle_op.get f) h p = .ok h' → h' = h) ∧
    (∀ h', run_op P fs handle_op.get_pgpgin h p = .ok h' → h' = h) ∧
    (∀ h', run_op P fs handle_op.get_pgpgout h p = .ok h' → h' = h) ∧
    (∀ h', run_op P fs handle_op.get_pgscand h p = .ok h' → h' = h) ∧
    (∀ h', run_op P fs handle_op.get_pgscank h p = .ok h' → h' = h) ∧
    (∀ h', run_op P fs handle_op.unref h p = .ok h' →
      (2 ≤ vm.refcount ∧
        h'.vmem p = some { refcount := vm.refcount - 1, data := vm.data } ∧
        h'.data = h.data) ∨
      (vm.refcount ≤ 1 ∧ h'.vmem p = none)) ∧
    (∀ (g : Heap) (c1 c2 : Nat), c1 ≠ 0 → c2 ≠ 0 →
      (proc_vmem_new g c1 c2).1 = 0 ∧ (proc_vmem_new g c1 c2).2.2 = some c1 ∧
      ((proc_vmem_new g c1 c2).2.1.vmem c1).map proc_vmem.refcount = some 1 ∧
      (proc_vmem_unref (proc_vmem_new g c1 c2).2.1 c1).map Prod.snd = .ok 0) := by
  have hacc : ∀ (x : Outcome Nat) (h' : Heap), x.map (fun _ => h) = .ok h' → h' = h := by
    intro x h' hx
    obtain ⟨_, _, hfa⟩ := except_map_ok _ _ _ hx
    exact hfa.symm
  refine ⟨?_, fun f h' hr => hacc _ h' hr, fun h' hr => hacc _ h' hr,
    fun h' hr => hacc _ h' hr, fun h' hr => hacc _ h' hr, fun h' hr => hacc _ h' hr, ?_, ?_⟩
  · intro h' hrun
    have hv := proc_vmem_read_vmem P fs h h' p hrun
    exact ⟨hv, by rw [hv]; exact hvm⟩
  · intro h' hrun
    obtain ⟨a, ha, hfa⟩ := except_map_ok _ _ _ hrun
    subst hfa
    rcases proc_vmem_unref_exact h a.1 p a.2 vm hp hvm ha with ⟨h2, _, hv, hd⟩ | ⟨h1, _, hv⟩
    · exact Or.inl ⟨h2, hv, hd⟩
    · exact Or.inr ⟨h1, hv⟩
  · intro g c1 c2 h1 h2
    rw [proc_vmem_new_ok g c1 c2 h1 h2]
    refine ⟨rfl, rfl, by simp, ?_⟩
    rw [proc_vmem_unref_last _ c1 { refcount := 1, data := c2 } zero_data h1 (by simp) h2
      (by simp) rfl]
    rfl

/-- Witness of the amended C9: releasing one of two references of the handle
at address 1 leaves it live with refcount 1 and its record in place. -/
theorem refcount_never_raised_witness :
    ∃ h', run_op procparser (fs_of none none) handle_op.unref
        ((Heap.empty.setData 7 (some zero_data)).setVmem 1 (some { refcount := 2, data := 7 })) 1
        = .ok h' ∧
      h'.vmem 1 = some { refcount := 1, data := 7 } := by
  refine ⟨_, rfl, ?_⟩
  rcases (refcount_never_raised procparser (fs_of none none)
    ((Heap.empty.setData 7 (some zero_data)).setVmem 1 (some { refcount := 2, data := 7 })) 1
    { refcount := 2, data := 7 } (by decide) (by rfl)).2.2.2.2.2.2.1 _ rfl with h2 | h1
  · exact h2.2.1
  · exact absurd h1.1 (by decide)

/-! ## Page-in and page-out -/

/-- C7 fails on the code.  With a populated handle (pgpgin 100, pgpgout 200)
and a summary source that cannot be opened, `proc_vmem_get_pgpgin` and
`proc_vmem_get_pgpgout` do not return the record's counters: the null stream
goes to `fgets` and the call faults.  And with a summary source without a
`page` line, a stored counter of 2^32 + 7 comes back as 7, the return type
being `unsigned`. -/
theorem pgpgin_unopenable_source_faults :
    proc_vmem_get_pgpgin (fs_of none none)
      (fresh_heap.setData 7 (some (setField (setField zero_data vm_pgpgin 100) vm_pgpgout 200))) 1
      = .error .fault ∧
    proc_vmem_get_pgpgout (fs_of none none)
      (fresh_heap.setData 7 (some (setField (setField zero_data vm_pgpgin 100) vm_pgpgout 200))) 1
      = .error .fault ∧
    proc_vmem_get_pgpgin (fs_of (some "cpu 1 2 3\n") none)
      (fresh_heap.setData 7 (some (setField zero_data vm_pgpgin (2 ^ 32 + 7)))) 1 = .ok 7 := by
  refine ⟨by rfl, by rfl, by rfl⟩

/-! ## stdio lemmas -/

theorem fgets_append (n : Nat) (s : List Char) :
    (fgets n s).1 ++ (fgets n s).2 = s := by
  induction s generalizing n with
  | nil => simp [fgets]
  | cons c cs ih =>
    match n with
    | 0 => rfl
    | 1 => rfl
    | n + 2 =>
      by_cases hc : c = '\n'
      · simp [fgets, hc]
      · simp [fgets, hc, ih (n + 1)]

theorem fgets_short_line (l rest : List Char) (n : Nat) (hnl : '\n' ∉ l)
    (hlen : l.length + 2 ≤ n) : fgets n (l ++ '\n' :: rest) = (l ++ ['\n'], rest) := by
  induction l generalizing n with
  | nil =>
    obtain ⟨m, rfl⟩ : ∃ m, n = m + 2 := ⟨n - 2, by simp at hlen; omega⟩
    simp [fgets]
  | cons c cs ih =>
    obtain ⟨m, rfl⟩ : ∃ m, n = m + 2 := ⟨n - 2, by simp at hlen; omega⟩
    have hc : c ≠ '\n' := fun h => hnl (by simp [h])
    have hcs : '\n' ∉ cs := fun h => hnl (by simp [h])
    have := ih (m + 1) hcs (by simp at hlen; omega)
    simp [fgets, hc, this]

theorem scan_loop_succ (word : String) (fuel : Nat) (s : List Char) (hlen : s.length ≤ fuel) :
    scan_loop word (fuel + 1) s = scan_loop word fuel s := by
  induction fuel generalizing s with
  | zero =>
    have hs : s = [] := List.length_eq_zero.mp (Nat.le_zero.mp hlen)
    subst hs
    simp [scan_loop, fgets]
  | succ fuel ih =>
    rw [scan_loop, scan_loop.eq_def word (fuel + 1) s]
    dsimp only
    by_cases he : (fgets 2048 s).1 = []
    · simp [he]
    · have hrest : (fgets 2048 s).2.length ≤ fuel := by
        have h1 := congrArg List.length (fgets_append 2048 s)
        rw [List.length_append] at h1
        have h2 : 0 < (fgets 2048 s).1.length := List.length_pos.mpr he
        omega
      rw [if_neg he, if_neg he, ih _ hrest]

theorem scan_loop_enough (word : String) (s : List Char) (k : Nat) :
    scan_loop word (s.length + k) s = scan_stream word s := by
  induction k with
  | zero => rfl
  | succ k ih => rw [← Nat.add_assoc, scan_loop_succ word _ s (by omega), ih]

theorem scan_stream_line (word : String) (l rest : List Char) (hl : short_line l) :
    scan_stream word (l ++ '\n' :: rest) =
      match sscanf_lu_lu word (l ++ ['\n']) with
      | [a, b] => some (a, b)
      | _ => scan_stream word rest := by
  have hlen : (l ++ '\n' :: rest).length = (rest.length + l.length) + 1 := by
    simp
    omega
  rw [scan_stream, hlen, scan_loop]
  rw [fgets_short_line l rest 2048 hl.1 hl.2]
  dsimp only
  rw [if_neg (by simp), scan_loop_enough]

theorem scan_stream_skip (word : String) (l rest : List Char) (hl : short_line l)
    (hno : (sscanf_lu_lu word (l ++ ['\n'])).length ≠ 2) :
    scan_stream word (l ++ '\n' :: rest) = scan_stream word rest := by
  rw [scan_stream_line word l rest hl]
  split
  · rename_i a b heq
    rw [heq] at hno
    exact absurd rfl hno
  · rfl

theorem scan_stream_found (word : String) (l rest : List Char) (a b : Nat) (hl : short_line l)
    (hyes : sscanf_lu_lu word (l ++ ['\n']) = [a, b]) :
    scan_stream word (l ++ '\n' :: rest) = some (a, b) := by
  rw [scan_stream_line word l rest hl, hyes]

theorem scan_stream_skip_lines (word : String) (pre : List (List Char)) (rest : List Char)
    (hshort : ∀ l ∈ pre, short_line l)
    (hno : ∀ l ∈ pre, (sscanf_lu_lu word (l ++ ['\n'])).length ≠ 2) :
    scan_stream word (text_of_lines pre ++ rest) = scan_stream word rest := by
  induction pre with
  | nil => rfl
  | cons l ls ih =>
    have h1 : text_of_lines (l :: ls) ++ rest = l ++ '\n' :: (text_of_lines ls ++ rest) := by
      simp [text_of_lines]
    rw [h1, scan_stream_skip word l _ (hshort l (by simp)) (hno l (by simp))]
    exact ih (fun x hx => hshort x (by simp [hx])) (fun x hx => hno x (by simp [hx]))

theorem scan_stream_nil (word : String) : scan_stream word [] = none := rfl

theorem digitChar_digit (k : Nat) (hk : k < 10) :
    isdigit (Nat.digitChar k) = true ∧ digitVal (Nat.digitChar k) = k := by
  interval_cases k <;> exact ⟨by decide, by decide⟩

theorem isdigit_not_space (c : Char) (hc : isdigit c = true) : isspace c = false := by
  by_contra hs
  simp only [isspace, Bool.not_eq_false, Bool.or_eq_true, decide_eq_true_eq] at hs
  rcases hs with ((((h | h) | h) | h) | h) | h <;> subst h <;> exact absurd hc (by decide)

theorem isdigit_not_sign (c : Char) (hc : isdigit c = true) : c ≠ '-' ∧ c ≠ '+' := by
  constructor <;> intro h <;> subst h <;> exact absurd hc (by decide)

theorem isdigit_not_nul (c : Char) (hc : isdigit c = true) : c ≠ '\x00' := by
  intro h
  subst h
  exact absurd hc (by decide)

theorem isdigit_not_newline (c : Char) (hc : isdigit c = true) : c ≠ '\n' := by
  intro h
  subst h
  exact absurd hc (by decide)

theorem toDigitsCore_scan (fuel n : Nat) (ds r : List Char) (hn : n < fuel) :
    scan_digits 0 (Nat.toDigitsCore 10 fuel n ds ++ r) = scan_digits n (ds ++ r) := by
  induction fuel generalizing n ds with
  | zero => omega
  | succ fuel ih =>
    have hd := digitChar_digit (n % 10) (Nat.mod_lt n (by decide))
    unfold Nat.toDigitsCore
    dsimp only
    by_cases h0 : n / 10 = 0
    · rw [if_pos h0]
      have hlt : n < 10 := by omega
      rw [Nat.mod_eq_of_lt hlt] at hd ⊢
      simp [scan_digits, hd.1, hd.2]
    · rw [if_neg h0, ih (n / 10) _ (by omega)]
      have hdiv : n / 10 * 10 + n % 10 = n := by omega
      simp [scan_digits, hd.1, hd.2, hdiv]

theorem toDigitsCore_all (fuel n : Nat) (ds : List Char) (c : Char)
    (hc : c ∈ Nat.toDigitsCore 10 fuel n ds) : isdigit c = true ∨ c ∈ ds := by
  induction fuel generalizing n ds with
  | zero => exact Or.inr (by simpa [Nat.toDigitsCore] using hc)
  | succ fuel ih =>
    have hd := digitChar_digit (n % 10) (Nat.mod_lt n (by decide))
    unfold Nat.toDigitsCore at hc
    dsimp only at hc
    split_ifs at hc with h0
    · rcases List.mem_cons.mp hc with h | h
      · exact Or.inl (h ▸ hd.1)
      · exact Or.inr h
    · rcases ih _ _ hc with h | h
      · exact Or.inl h
      · rcases List.mem_cons.mp h with h | h
        · exact Or.inl (h ▸ hd.1)
        · exact Or.inr h

theorem toDigitsCore_ne_nil (fuel n : Nat) (ds : List Char) (h : 0 < fuel ∨ ds ≠ []) :
    Nat.toDigitsCore 10 fuel n ds ≠ [] := by
  induction fuel generalizing n ds with
  | zero =>
    rcases h with h | h
    · omega
    · simpa [Nat.toDigitsCore] using h
  | succ fuel ih =>
    unfold Nat.toDigitsCore
    dsimp only
    split_ifs with h0
    · simp
    · exact ih _ _ (Or.inr (by simp))

theorem toDigits_all (n : Nat) (c : Char) (hc : c ∈ Nat.toDigits 10 n) : isdigit c = true := by
  rcases toDigitsCore_all (n + 1) n [] c hc with h | h
  · exact h
  · simp at h

theorem toDigits_cons (n : Nat) :
    ∃ c cs, Nat.toDigits 10 n = c :: cs ∧ isdigit c = true := by
  have hne : Nat.toDigits 10 n ≠ [] := toDigitsCore_ne_nil (n + 1) n [] (Or.inl (by omega))
  obtain ⟨c, cs, h⟩ := List.exists_cons_of_ne_nil hne
  exact ⟨c, cs, h, toDigits_all n c (by rw [h]; simp)⟩

theorem toDigits_length (n : Nat) (hn : n < ULONG_MOD) : (Nat.toDigits 10 n).length ≤ 20 :=
  Nat.toDigitsCore_length 10 (by decide) (n + 1) n 20
    (lt_of_lt_of_le hn (by decide)) (by decide)

theorem scan_digits_stop (acc : Nat) (r : List Char)
    (hr : ∀ c cs, r = c :: cs → isdigit c = false) : scan_digits acc r = (acc, r) := by
  cases r with
  | nil => rfl
  | cons c cs => simp [scan_digits, hr c cs rfl]

theorem conv_lu_digits (n : Nat) (r : List Char) (hn : n < ULONG_MOD)
    (hr : ∀ c cs, r = c :: cs → isdigit c = false) :
    conv_lu (Nat.toDigits 10 n ++ r) = some (n, r) := by
  obtain ⟨c, cs, hcs, hc⟩ := toDigits_cons n
  have hscan : scan_digits 0 (Nat.toDigits 10 n ++ r) = (n, r) := by
    have := toDigitsCore_scan (n + 1) n [] r (by omega)
    rw [List.nil_append, scan_digits_stop n r hr] at this
    exact this
  have hsp : skip_space (Nat.toDigits 10 n ++ r) = Nat.toDigits 10 n ++ r := by
    rw [hcs]
    simp [skip_space, List.dropWhile, isdigit_not_space c hc]
  have hsg : scan_sign (Nat.toDigits 10 n ++ r) = (false, Nat.toDigits 10 n ++ r) := by
    rw [hcs]
    simp [scan_sign, (isdigit_not_sign c hc).1, (isdigit_not_sign c hc).2]
  unfold conv_lu
  rw [hsp, hsg]
  dsimp only
  rw [hcs] at hscan ⊢
  rw [List.cons_append] at hscan ⊢
  dsimp only
  rw [if_pos hc, hscan]
  simp [strtoul_value, Nat.not_le.mpr hn]

theorem skip_space_digits (n : Nat) (r : List Char) :
    skip_space (' ' :: (Nat.toDigits 10 n ++ r)) = Nat.toDigits 10 n ++ r := by
  obtain ⟨c, cs, hcs, hc⟩ := toDigits_cons n
  have hsp : isspace ' ' = true := by decide
  rw [hcs]
  simp [skip_space, List.dropWhile, isdigit_not_space c hc, hsp]

theorem match_literal_append (w s : List Char) : match_literal w (w ++ s) = some s := by
  induction w with
  | nil => cases s <;> rfl
  | cons c cs ih => simp [match_literal, ih]

theorem c_str_of_no_nul (buf : List Char) (h : ∀ c ∈ buf, c ≠ '\x00') : c_str buf = buf := by
  unfold c_str
  rw [List.takeWhile_eq_self_iff]
  intro c hc
  simpa using h c hc

theorem sscanf_stat_line (word : String) (a b : Nat) (hw : ∀ c ∈ word.toList, c ≠ '\x00')
    (ha : a < ULONG_MOD) (hb : b < ULONG_MOD) :
    sscanf_lu_lu word (stat_line word a b ++ ['\n']) = [a, b] := by
  have hnul : ∀ c ∈ stat_line word a b ++ ['\n'], c ≠ '\x00' := by
    intro c hc
    simp only [stat_line, List.mem_append, List.mem_cons, List.mem_singleton,
      List.not_mem_nil, or_false] at hc
    rcases hc with (h | h | h | h | h) | h
    · exact hw c h
    · subst h; decide
    · exact isdigit_not_nul c (toDigits_all a c h)
    · subst h; decide
    · exact isdigit_not_nul c (toDigits_all b c h)
    · subst h; decide
  have hshape : stat_line word a b ++ ['\n'] =
      word.toList ++ ' ' :: (Nat.toDigits 10 a ++ ' ' :: (Nat.toDigits 10 b ++ ['\n'])) := by
    simp [stat_line]
  unfold sscanf_lu_lu
  rw [c_str_of_no_nul _ hnul, hshape, match_literal_append]
  dsimp only
  rw [skip_space_digits a, conv_lu_digits a _ ha (by intro c cs h; cases h; decide)]
  dsimp only
  rw [skip_space_digits b, conv_lu_digits b _ hb (by intro c cs h; cases h; decide)]

theorem stat_line_short (word : String) (a b : Nat) (hw : '\n' ∉ word.toList)
    (hlen : word.length ≤ 1000) (ha : a < ULONG_MOD) (hb : b < ULONG_MOD) :
    short_line (stat_line word a b) := by
  constructor
  · intro hc
    simp only [stat_line, List.mem_append, List.mem_cons] at hc
    rcases hc with h | h | h | h | h
    · exact hw h
    · exact absurd h (by decide)
    · exact isdigit_not_newline _ (toDigits_all a _ h) rfl
    · exact absurd h (by decide)
    · exact isdigit_not_newline _ (toDigits_all b _ h) rfl
  · have h1 := toDigits_length a ha
    have h2 := toDigits_length b hb
    have h3 : word.toList.length = word.length := rfl
    simp only [stat_line, List.length_append, List.length_cons]
    omega

/-! ## Lemmas on the modelled table parser -/

theorem split_lines_text (lines : List (List Char)) (hnl : ∀ l ∈ lines, '\n' ∉ l) :
    split_lines (text_of_lines lines) = lines := by
  induction lines with
  | nil => rfl
  | cons l ls ih =>
    have hls := ih (fun x hx => hnl x (by simp [hx]))
    have hl : '\n' ∉ l := hnl l (by simp)
    clear ih hnl
    induction l with
    | nil => simp [text_of_lines, split_lines, hls]
    | cons c cs ihc =>
      have hc : c ≠ '\n' := fun h => hl (by simp [h])
      have hcs : '\n' ∉ cs := fun h => hl (by simp [h])
      have := ihc hcs
      simp only [text_of_lines, List.cons_append] at this ⊢
      simp [split_lines, hc, this]

theorem parse_line_other (table : proc_table) (count : Nat) (sep : Char)
    (data : proc_vmem_data) (line : List Char) (f : vm_field)
    (hne : table_lookup table count (leading_token sep line) ≠ some f) :
    parse_line table count sep data line f = data f := by
  cases hg : table_lookup table count (leading_token sep line) with
  | none => simp [parse_line, hg]
  | some g =>
    have hgf : f ≠ g := fun h => hne (by rw [hg, h])
    simp [parse_line, hg, setField_apply, hgf]

theorem parse_line_hit (table : proc_table) (count : Nat) (sep : Char)
    (data : proc_vmem_data) (line : List Char) (f : vm_field)
    (hit : table_lookup table count (leading_token sep line) = some f) :
    parse_line table count sep data line f = parse_uint (value_token sep line) := by
  simp [parse_line, hit, setField_apply]

theorem foldl_parse_untouched (table : proc_table) (count : Nat) (sep : Char)
    (lines : List (List Char)) (data : proc_vmem_data) (f : vm_field)
    (hne : ∀ l ∈ lines, table_lookup table count (leading_token sep l) ≠ some f) :
    lines.foldl (parse_line table count sep) data f = data f := by
  induction lines generalizing data with
  | nil => rfl
  | cons l ls ih =>
    rw [List.foldl_cons, ih _ (fun x hx => hne x (by simp [hx]))]
    exact parse_line_other table count sep data l f (hne l (by simp))

theorem foldl_parse_once (table : proc_table) (count : Nat) (sep : Char)
    (pre post : List (List Char)) (l : List Char) (data : proc_vmem_data) (f : vm_field)
    (hit : table_lookup table count (leading_token sep l) = some f)
    (hpost : ∀ x ∈ post, table_lookup table count (leading_token sep x) ≠ some f) :
    (pre ++ l :: post).foldl (parse_line table count sep) data f
      = parse_uint (value_token sep l) := by
  rw [List.foldl_append, List.foldl_cons, foldl_parse_untouched table count sep post _ f hpost]
  exact parse_line_hit table count sep _ l f hit

set_option maxRecDepth 100000 in
theorem vmem_table_lookup_all :
    ∀ e ∈ vmem_table, table_lookup vmem_table vmem_table_count e.1.toList = some e.2 := by
  decide

set_option maxRecDepth 100000 in
theorem vmem_table_fields_distinct :
    ∀ e ∈ vmem_table, ∀ e' ∈ vmem_table, e.2 = e'.2 → e.1 = e'.1 := by
  decide

set_option maxRecDepth 100000 in
theorem vmem_table_keys_plain :
    ∀ e ∈ vmem_table, ∀ c ∈ e.1.toList, is_sep ' ' c = false := by
  decide

theorem vmem_table_lookup_key (key : String) (f : vm_field) (hmem : (key, f) ∈ vmem_table) :
    table_lookup vmem_table vmem_table_count key.toList = some f :=
  vmem_table_lookup_all (key, f) hmem

theorem vmem_table_lookup_inj (key : String) (f : vm_field) (t : List Char)
    (hmem : (key, f) ∈ vmem_table)
    (hlook : table_lookup vmem_table vmem_table_count t = some f) : t = key.toList := by
  unfold table_lookup at hlook
  obtain ⟨e, he, hef⟩ := Option.map_eq_some'.mp hlook
  have hin : e ∈ vmem_table := List.mem_of_mem_take (List.mem_of_find?_eq_some he)
  have hkey : e.1.toList = t := by simpa using List.find?_some he
  have := vmem_table_fields_distinct e hin (key, f) hmem hef
  rw [← hkey, this]

theorem lookup_other_key (key : String) (f : vm_field) (l : List Char)
    (hmem : (key, f) ∈ vmem_table) (hne : leading_token ' ' l ≠ key.toList) :
    table_lookup vmem_table vmem_table_count (leading_token ' ' l) ≠ some f :=
  fun h => hne (vmem_table_lookup_inj key f _ hmem h)

theorem takeWhile_append_stop {α : Type} (p : α → Bool) (xs : List α) (y : α) (ys : List α)
    (hxs : ∀ x ∈ xs, p x = true) (hy : p y = false) :
    (xs ++ y :: ys).takeWhile p = xs := by
  induction xs with
  | nil => simp [List.takeWhile, hy]
  | cons x xs ih =>
    simp [List.takeWhile, hxs x (by simp), ih (fun z hz => hxs z (by simp [hz]))]

theorem dropWhile_append_stop {α : Type} (p : α → Bool) (xs : List α) (y : α) (ys : List α)
    (hxs : ∀ x ∈ xs, p x = true) (hy : p y = false) :
    (xs ++ y :: ys).dropWhile p = y :: ys := by
  induction xs with
  | nil => simp [List.dropWhile, hy]
  | cons x xs ih =>
    simp [List.dropWhile, hxs x (by simp), ih (fun z hz => hxs z (by simp [hz]))]

theorem isdigit_not_sep (c : Char) (hc : isdigit c = true) : is_sep ' ' c = false := by
  have h1 := isdigit_not_space c hc
  have h2 : c ≠ ' ' := by
    intro h
    subst h
    exact absurd hc (by decide)
  simp [is_sep, h1, h2]

theorem leading_token_kv_line (key : String) (f : vm_field) (v : Nat)
    (hmem : (key, f) ∈ vmem_table) : leading_token ' ' (kv_line key v) = key.toList := by
  unfold leading_token kv_line
  apply takeWhile_append_stop
  · intro c hc
    simp [vmem_table_keys_plain (key, f) hmem c hc]
  · simp [is_sep]

theorem value_token_kv_line (key : String) (f : vm_field) (v : Nat)
    (hmem : (key, f) ∈ vmem_table) : value_token ' ' (kv_line key v) = Nat.toDigits 10 v := by
  obtain ⟨c, cs, hcs, hc⟩ := toDigits_cons v
  unfold value_token kv_line
  rw [dropWhile_append_stop (fun c => !is_sep ' ' c) key.toList ' ' (Nat.toDigits 10 v)
    (fun c hc => by simp [vmem_table_keys_plain (key, f) hmem c hc]) (by simp [is_sep])]
  have hdrop : List.dropWhile (is_sep ' ') (' ' :: Nat.toDigits 10 v) = Nat.toDigits 10 v := by
    rw [hcs]
    have h0 : is_sep ' ' ' ' = true := by decide
    simp [List.dropWhile, h0, isdigit_not_sep c hc]
  rw [hdrop, List.takeWhile_eq_self_iff]
  intro x hx
  simp [isdigit_not_sep x (toDigits_all v x hx)]

theorem parse_uint_toDigits (v : Nat) (hv : v < ULONG_MOD) :
    parse_uint (Nat.toDigits 10 v) = v := by
  obtain ⟨c, cs, hcs, _⟩ := toDigits_cons v
  have hscan : scan_digits 0 (Nat.toDigits 10 v) = (v, []) := by
    have := toDigitsCore_scan (v + 1) v [] [] (by omega)
    simpa [scan_digits] using this
  rw [hcs] at hscan ⊢
  unfold parse_uint
  dsimp only
  rw [hscan]
  simp [hv]

theorem reset_aggregates_other (d : proc_vmem_data) (f : vm_field)
    (hf : is_aggregate f = false) : reset_aggregates d f = d f := by
  simp only [is_aggregate, Bool.or_eq_false_iff, decide_eq_false_iff_not] at hf
  simp [reset_aggregates, setField_apply, hf.1.1.1, hf.1.1.2, hf.1.2, hf.2]

theorem reset_aggregates_zero : reset_aggregates zero_data = zero_data := by
  funext f
  simp only [reset_aggregates, setField_apply, zero_data]
  split_ifs <;> rfl

theorem procparser_ok (fs : FileSystem) (lines : List (List Char)) (d : proc_vmem_data)
    (hfs : fs PROC_VMSTAT = some (text_of_lines lines)) (hnl : ∀ l ∈ lines, '\n' ∉ l) :
    procparser fs PROC_VMSTAT vmem_table vmem_table_count ' ' d
      = .ok (lines.foldl (parse_line vmem_table vmem_table_count ' ') d) := by
  simp [procparser, hfs, split_lines_text lines hnl]

theorem fgets_full (l rest : List Char) (n : Nat) (hnl : '\n' ∉ l)
    (hlen : l.length + 1 = n) : fgets n (l ++ rest) = (l, rest) := by
  induction l generalizing n with
  | nil =>
    subst hlen
    cases rest <;> rfl
  | cons c cs ih =>
    obtain ⟨m, rfl⟩ : ∃ m, n = m + 2 := ⟨n - 2, by simp at hlen; omega⟩
    have hc : c ≠ '\n' := fun h => hnl (by simp [h])
    have hcs : '\n' ∉ cs := fun h => hnl (by simp [h])
    have := ih (m + 1) hcs (by simp at hlen; omega)
    simp [fgets, hc, this]

theorem scan_stream_full_buffer (word : String) (l rest : List Char) (hnl : '\n' ∉ l)
    (hlen : l.length = 2047) (hno : (sscanf_lu_lu word l).length ≠ 2) :
    scan_stream word (l ++ rest) = scan_stream word rest := by
  have hl : (l ++ rest).length = (rest.length + 2046) + 1 := by
    simp [hlen]
    omega
  have hne : l ≠ [] := by
    intro h
    rw [h] at hlen
    cases hlen
  rw [scan_stream, hl, scan_loop, fgets_full l rest 2048 hnl (by omega)]
  dsimp only
  rw [if_neg hne, scan_loop_enough]
  split
  · rename_i a b heq
    rw [heq] at hno
    exact absurd rfl hno
  · rfl

theorem sscanf_x_run (k : Nat) : sscanf_lu_lu "swap" (List.replicate (k + 1) 'x') = [] := by
  have h1 : c_str (List.replicate (k + 1) 'x') = 'x' :: c_str (List.replicate k 'x') := by
    simp [c_str, List.replicate_succ, List.takeWhile]
  have h2 : ("swap" : String).toList = ['s', 'w', 'a', 'p'] := rfl
  simp [sscanf_lu_lu, h1, h2, match_literal]

/-! ## Swap activity -/

theorem swap_io_found (P : procparser_t) (fs : FileSystem) (h : Heap) (c1 c2 : Nat)
    (s : List Char) (a b : Nat) (hs : fs PROC_STAT = some s)
    (hscan : scan_stream "swap" s = some (a, b)) :
    proc_vmem_get_swap_io P fs h c1 c2 = .ok ((a, b), h) := by
  simp [proc_vmem_get_swap_io, hs, hscan]

theorem swap_io_fallback (P : procparser_t) (fs : FileSystem) (h : Heap) (c1 c2 : Nat)
    (s : List Char) (parsed : proc_vmem_data) (hs : fs PROC_STAT = some s)
    (hscan : scan_stream "swap" s = none) (h1 : c1 ≠ 0) (h2 : c2 ≠ 0)
    (hparse : P fs PROC_VMSTAT vmem_table vmem_table_count ' ' zero_data = .ok parsed) :
    ∃ h', proc_vmem_get_swap_io P fs h c1 c2
        = .ok ((parsed vm_pswpin, parsed vm_pswpout), h') ∧
      h'.vmem c1 = none ∧ h'.data c2 = none := by
  have hnew := proc_vmem_new_ok h c1 c2 h1 h2
  generalize hH : (((h.setVmem c1 (some { refcount := 0, data := 0 })).setVmem c1
    (some { refcount := 1, data := 0 })).setData c2 (some zero_data)).setVmem c1
    (some { refcount := 1, data := c2 }) = H at hnew
  have hHv : H.vmem c1 = some { refcount := 1, data := c2 } := by rw [← hH]; simp
  have hHd : H.data c2 = some zero_data := by rw [← hH]; simp
  have hread := proc_vmem_read_ok P fs H c1 { refcount := 1, data := c2 } zero_data parsed h1
    hHv hHd (by rw [reset_aggregates_zero]; exact hparse)
  have hin := proc_vmem_get_live vm_pswpin (H.setData c2 (some (fill_aggregates parsed))) c1
    { refcount := 1, data := c2 } (fill_aggregates parsed) h1 (by simpa using hHv) (by simp)
  have hout := proc_vmem_get_live vm_pswpout (H.setData c2 (some (fill_aggregates parsed))) c1
    { refcount := 1, data := c2 } (fill_aggregates parsed) h1 (by simpa using hHv) (by simp)
  have hunref := proc_vmem_unref_last (H.setData c2 (some (fill_aggregates parsed))) c1
    { refcount := 1, data := c2 } (fill_aggregates parsed) h1 (by simpa using hHv) h2
    (by simp) rfl
  rw [fill_aggregates_other parsed vm_pswpin rfl] at hin
  rw [fill_aggregates_other parsed vm_pswpout rfl] at hout
  refine ⟨(((H.setData c2 (some (fill_aggregates parsed))).setVmem c1
    (some { refcount := 0, data := c2 })).setData c2 none).setVmem c1 none, ?_, by simp,
    by simp⟩
  simp only [proc_vmem_get_swap_io, hs, hscan, hnew, Option.getD_some, lt_self_iff_false,
    if_false, hread, proc_vmem_get_pswpin, proc_vmem_get_pswpout, hin, hout, hunref]
  rfl

/-- C5 fails on the code for two of the thirteen accessors.  The eleven
accessors that only read the record return 0 on a null handle, on every heap.
`proc_vmem_get_pgpgin` and `proc_vmem_get_pgpgout` have no null check: with a
null handle and a summary source without a `page` line they dereference the
handle and fault, and with the line `page 5 6` they return 5 and 6, not 0. -/
theorem pgpgin_null_handle_faults :
    (∀ h : Heap,
      proc_vmem_get_pgalloc h 0 = .ok 0 ∧ proc_vmem_get_pgfault h 0 = .ok 0 ∧
      proc_vmem_get_pgfree h 0 = .ok 0 ∧ proc_vmem_get_pgmajfault h 0 = .ok 0 ∧
      proc_vmem_get_pgrefill h 0 = .ok 0 ∧ proc_vmem_get_pgscan h 0 = .ok 0 ∧
      proc_vmem_get_pgsteal h 0 = .ok 0 ∧ proc_vmem_get_pswpin h 0 = .ok 0 ∧
      proc_vmem_get_pswpout h 0 = .ok 0 ∧ proc_vmem_get_pgscand h 0 = .ok 0 ∧
      proc_vmem_get_pgscank h 0 = .ok 0) ∧
    proc_vmem_get_pgpgin (fs_of (some "cpu 1 2 3\n") none) Heap.empty 0 = .error .fault ∧
    proc_vmem_get_pgpgout (fs_of (some "cpu 1 2 3\n") none) Heap.empty 0 = .error .fault ∧
    proc_vmem_get_pgpgin (fs_of (some "cpu 1 2 3\npage 5 6\n") none) Heap.empty 0 = .ok 5 ∧
    proc_vmem_get_pgpgout (fs_of (some "cpu 1 2 3\npage 5 6\n") none) Heap.empty 0 = .ok 6 := by
  refine ⟨fun h => ⟨rfl, rfl, rfl, rfl, rfl, rfl, rfl, rfl, rfl, rfl, rfl⟩, ?_, ?_, ?_, ?_⟩
    <;> rfl

/-! ## Slots after a read -/

/-- C10, as stated, fails: only the four aggregates are cleared before the
parse.  A handle that read `pgfree 99` and then reads a source without a
`pgfree` line still holds 99 in that slot, not zero. -/
theorem absent_key_keeps_old_value :
    ∃ h1 h2,
      proc_vmem_read procparser (fs_of none (some "pgfree 99\n")) fresh_heap 1 = .ok h1 ∧
      proc_vmem_read procparser (fs_of none (some "pgfault 50\n")) h1 1 = .ok h2 ∧
      proc_vmem_get_pgfree h2 1 = .ok 99 :=
  ⟨_, _, rfl, rfl, rfl⟩

/-- C10, amended.  For a live handle and a source of newline-ended lines read
through the modelled table parser, `proc_vmem_read` returns and, for each key
of the schema other than the four legacy aggregates: if exactly one line is
headed by the key and that line is `<key> <v>` with `v` an `unsigned long` in
decimal, the slot holds `v` after the read; if no line is headed by the key,
the slot holds what it held before the call (zero on the all-zero record of a
freshly created handle). -/
theorem read_slot_values (fs : FileSystem) (h : Heap) (vmem : Nat) (vm : proc_vmem)
    (d0 : proc_vmem_data) (lines : List (List Char)) (hv : vmem ≠ 0)
    (hvm : h.vmem vmem = some vm) (hd : h.data vm.data = some d0)
    (hfs : fs PROC_VMSTAT = some (text_of_lines lines)) (hnl : ∀ l ∈ lines, '\n' ∉ l) :
    ∃ h' d1, proc_vmem_read procparser fs h vmem = .ok h' ∧ h'.vmem vmem = some vm ∧
      h'.data vm.data = some d1 ∧
      ∀ (key : String) (f : vm_field), (key, f) ∈ vmem_table → is_aggregate f = false →
        proc_vmem_get f h' vmem = .ok (d1 f) ∧
        (∀ (pre post : List (List Char)) (v : Nat), lines = pre ++ kv_line key v :: post →
          v < ULONG_MOD → (∀ l ∈ pre ++ post, leading_token ' ' l ≠ key.toList) → d1 f = v) ∧
        ((∀ l ∈ lines, leading_token ' ' l ≠ key.toList) →
          d1 f = d0 f ∧ (d0 = zero_data → d1 f = 0)) := by
  have hparse := procparser_ok fs lines (reset_aggregates d0) hfs hnl
  refine ⟨_, fill_aggregates (lines.foldl (parse_line vmem_table vmem_table_count ' ')
      (reset_aggregates d0)),
    proc_vmem_read_ok procparser fs h vmem vm d0 _ hv hvm hd hparse,
    by simpa using hvm, by simp, ?_⟩
  intro key f hmem hagg
  refine ⟨proc_vmem_get_live f _ vmem vm _ hv (by simpa using hvm) (by simp), ?_, ?_⟩
  · intro pre post v hlines hvlt hothers
    rw [fill_aggregates_other _ f hagg, hlines,
      foldl_parse_once vmem_table vmem_table_count ' ' pre post (kv_line key v) _ f
        (by rw [leading_token_kv_line key f v hmem]; exact vmem_table_lookup_key key f hmem)
        (fun x hx => lookup_other_key key f x hmem (hothers x (by simp [hx]))),
      value_token_kv_line key f v hmem, parse_uint_toDigits v hvlt]
  · intro habs
    have e : fill_aggregates (lines.foldl (parse_line vmem_table vmem_table_count ' ')
        (reset_aggregates d0)) f = d0 f := by
      rw [fill_aggregates_other _ f hagg,
        foldl_parse_untouched vmem_table vmem_table_count ' ' lines _ f
          (fun l hl => lookup_other_key key f l hmem (habs l hl)),
        reset_aggregates_other d0 f hagg]
    exact ⟨e, fun hz => by rw [e, hz]; rfl⟩

/-- Witness of the amended C10: a fresh handle reading the source `pgpgin 100`,
`pgpgout 200`, `pgfault 50`, `pgmajfault 3` has `proc_vmem_get_pgfault` = 50,
`proc_vmem_get_pgmajfault` = 3 and `proc_vmem_get_pgfree` = 0. -/
theorem read_slot_values_witness :
    ∃ h', proc_vmem_read procparser
        (fs_of none (some "pgpgin 100\npgpgout 200\npgfault 50\npgmajfault 3\n"))
        fresh_heap 1 = .ok h' ∧
      proc_vmem_get_pgfault h' 1 = .ok 50 ∧ proc_vmem_get_pgmajfault h' 1 = .ok 3 ∧
      proc_vmem_get_pgfree h' 1 = .ok 0 := by
  obtain ⟨h', d1, hread, _, _, hslots⟩ :=
    read_slot_values (fs_of none (some "pgpgin 100\npgpgout 200\npgfault 50\npgmajfault 3\n"))
      fresh_heap 1 { refcount := 1, data := 7 } zero_data
      ["pgpgin 100".toList, "pgpgout 200".toList, "pgfault 50".toList, "pgmajfault 3".toList]
      (by decide) (by rfl) (by rfl) (by rfl) (by decide)
  obtain ⟨g1, v1, _⟩ := hslots "pgfault" vm_pgfault (by decide) rfl
  obtain ⟨g2, v2, _⟩ := hslots "pgmajfault" vm_pgmajfault (by decide) rfl
  obtain ⟨g3, _, a3⟩ := hslots "pgfree" vm_pgfree (by decide) rfl
  refine ⟨h', hread, ?_, ?_, ?_⟩
  · rw [proc_vmem_get_pgfault, g1,
      v1 ["pgpgin 100".toList, "pgpgout 200".toList] ["pgmajfault 3".toList] 50 (by rfl)
        (by decide) (by decide)]
  · rw [proc_vmem_get_pgmajfault, g2,
      v2 ["pgpgin 100".toList, "pgpgout 200".toList, "pgfault 50".toList] [] 3 (by rfl)
        (by decide) (by decide)]
  · rw [proc_vmem_get_pgfree, g3, (a3 (by decide)).2 rfl]

end Vminfo
